import Mathlib

/-!
Verification of `iso_mount_tool.py` (ISO loopback-mount helper).

Strings are modelled as `List Char` (Python `str` is a sequence of Unicode
code points, like Lean's `Char`).  Pure path / hashing helpers are embedded
directly; the stateful `mount_iso` / `unmount_iso` / `main` procedures are
embedded as functions from an explicit `World` (filesystem + mount table +
outcomes of the external collaborators) to an exit tag, the updated world,
and a trace of the external operations invoked.
-/

set_option maxRecDepth 20000

abbrev Str := List Char

/-! ## Python character classes

`re.sub(r'[^\w.-]', '_', s)` in Python 3 on `str` uses the Unicode-aware
`\w`: underscore plus every alphanumeric character in the sense of
`str.isalnum()` (Unicode categories L*, Nd, Nl, No).  We model this class
exactly on the ASCII and Latin-1 range (code points 0x00..0xFF, covering
every character the proofs and counterexamples touch); code points above
0xFF are approximated as non-word characters. -/

/-- Python's word-character class `\w` (underscore or alphanumeric),
modelled exactly for code points `≤ 0xFF`. -/
def pyIsWordChar (c : Char) : Bool :=
  let n := c.toNat
  decide ((48 ≤ n ∧ n ≤ 57) ∨ (65 ≤ n ∧ n ≤ 90) ∨ (97 ≤ n ∧ n ≤ 122) ∨ n = 95 ∨
    n = 0xAA ∨ n = 0xB5 ∨ n = 0xBA ∨ n = 0xB2 ∨ n = 0xB3 ∨ n = 0xB9 ∨
    n = 0xBC ∨ n = 0xBD ∨ n = 0xBE ∨
    (0xC0 ≤ n ∧ n ≤ 0xFF ∧ n ≠ 0xD7 ∧ n ≠ 0xF7))

/-- One character of `re.sub(r'[^\w.-]', '_', s)`: characters outside
`\w`, `.`, `-` are replaced by `_`. -/
def replaceChar (c : Char) : Char :=
  if pyIsWordChar c || c == '.' || c == '-' then c else '_'

/-- Step `re.sub(r'_{2,}', '_', s)`: every maximal run of two or more
underscores collapses to a single underscore (a character is dropped
exactly when it is an underscore followed by another underscore). -/
def squeezeUnd : Str → Str
  | [] => []
  | [c] => [c]
  | a :: b :: t =>
    if a == '_' && b == '_' then squeezeUnd (b :: t) else a :: squeezeUnd (b :: t)

/-- Python `str.strip('_')`: remove leading and trailing underscores. -/
def stripUnd (l : Str) : Str :=
  ((l.dropWhile (fun c => c == '_')).reverse.dropWhile (fun c => c == '_')).reverse

/-- Function `sanitize_filename` from the source: replace characters outside
`[\w.-]` by `_`, collapse underscore runs, strip outer underscores. -/
def sanitize_filename (s : Str) : Str :=
  stripUnd (squeezeUnd (s.map replaceChar))

example : sanitize_filename "Ubuntu-22.04".data = "Ubuntu-22.04".data := by decide
example : sanitize_filename "a  b!!c".data = "a_b_c".data := by decide
example : sanitize_filename "___".data = [] := by decide
example : sanitize_filename "".data = [] := by decide
example : sanitize_filename ['é'] = ['é'] := by decide

/-! ## SHA-256

`hashlib.sha256(...).hexdigest()` computes SHA-256 as specified in
FIPS 180-4.  We embed the algorithm over byte lists (`List Nat`, each
element `< 256`), with 32-bit words as `Nat` reduced `% 2^32`.  Test
vectors below pin the embedding to the standard. -/

/-- UTF-8 encoding of one code point (Python `str.encode()`). -/
def utf8Char (c : Char) : List Nat :=
  let n := c.toNat
  if n < 0x80 then [n]
  else if n < 0x800 then [0xC0 ||| (n >>> 6), 0x80 ||| (n &&& 0x3F)]
  else if n < 0x10000 then
    [0xE0 ||| (n >>> 12), 0x80 ||| ((n >>> 6) &&& 0x3F), 0x80 ||| (n &&& 0x3F)]
  else
    [0xF0 ||| (n >>> 18), 0x80 ||| ((n >>> 12) &&& 0x3F),
     0x80 ||| ((n >>> 6) &&& 0x3F), 0x80 ||| (n &&& 0x3F)]

/-- UTF-8 encoding of a string (Python `str.encode()`). -/
def utf8 (s : Str) : List Nat := s.flatMap utf8Char

/-- Right rotation of a 32-bit word. -/
def rotr (n x : Nat) : Nat := ((x >>> n) ||| (x <<< (32 - n))) % 2 ^ 32

/-- Bitwise 32-bit complement. -/
def compl32 (x : Nat) : Nat := x ^^^ 0xFFFFFFFF

def ch32 (e f g : Nat) : Nat := (e &&& f) ^^^ (compl32 e &&& g)

def maj32 (a b c : Nat) : Nat := (a &&& b) ^^^ (a &&& c) ^^^ (b &&& c)

def bsig0 (x : Nat) : Nat := rotr 2 x ^^^ rotr 13 x ^^^ rotr 22 x

def bsig1 (x : Nat) : Nat := rotr 6 x ^^^ rotr 11 x ^^^ rotr 25 x

def ssig0 (x : Nat) : Nat := rotr 7 x ^^^ rotr 18 x ^^^ (x >>> 3)

def ssig1 (x : Nat) : Nat := rotr 17 x ^^^ rotr 19 x ^^^ (x >>> 10)

/-- The 64 SHA-256 round constants (FIPS 180-4 section 4.2.2, the first
32 bits of the fractional parts of the cube roots of the first 64
primes), written in decimal. -/
def k256 : List Nat :=
  [1116352408, 1899447441, 3049323471, 3921009573, 961987163, 1508970993,
   2453635748, 2870763221, 3624381080, 310598401, 607225278, 1426881987,
   1925078388, 2162078206, 2614888103, 3248222580, 3835390401, 4022224774,
   264347078, 604807628, 770255983, 1249150122, 1555081692, 1996064986,
   2554220882, 2821834349, 2952996808, 3210313671, 3336571891, 3584528711,
   113926993, 338241895, 666307205, 773529912, 1294757372, 1396182291,
   1695183700, 1986661051, 2177026350, 2456956037, 2730485921, 2820302411,
   3259730800, 3345764771, 3516065817, 3600352804, 4094571909, 275423344,
   430227734, 506948616, 659060556, 883997877, 958139571, 1322822218,
   1537002063, 1747873779, 1955562222, 2024104815, 2227730452, 2361852424,
   2428436474, 2756734187, 3204031479, 3329325298]

/-- Big-endian 8-byte encoding of the message bit length. -/
def lenBytes (bits : Nat) : List Nat :=
  [bits >>> 56 % 256, bits >>> 48 % 256, bits >>> 40 % 256, bits >>> 32 % 256,
   bits >>> 24 % 256, bits >>> 16 % 256, bits >>> 8 % 256, bits % 256]

/-- SHA-256 padding: append `0x80`, zero bytes to reach 56 mod 64, then the
64-bit big-endian bit length. -/
def padMsg (msg : List Nat) : List Nat :=
  let L := msg.length
  msg ++ 0x80 :: List.replicate ((119 - L % 64) % 64) 0 ++ lenBytes (8 * L)

/-- Split a byte list into 64-byte chunks; the fuel argument (any bound on
the number of remaining bytes) makes the recursion structural so that the
kernel can evaluate it. -/
def toChunksF : Nat → List Nat → List (List Nat)
  | _, [] => []
  | 0, _ :: _ => []
  | fuel + 1, b :: t => ((b :: t).take 64) :: toChunksF fuel ((b :: t).drop 64)

/-- Split a byte list into 64-byte chunks. -/
def toChunks (l : List Nat) : List (List Nat) := toChunksF l.length l

/-- Pack bytes into big-endian 32-bit words. -/
def toWords : List Nat → List Nat
  | b0 :: b1 :: b2 :: b3 :: rest => (((b0 * 256 + b1) * 256 + b2) * 256 + b3) :: toWords rest
  | _ => []

/-- One message-schedule extension step: append
`σ1(w[t-2]) + w[t-7] + σ0(w[t-15]) + w[t-16] mod 2^32`. -/
def stepW (acc : List Nat) : List Nat :=
  let n := acc.length
  acc ++ [(ssig1 (acc.getD (n - 2) 0) + acc.getD (n - 7) 0 +
           ssig0 (acc.getD (n - 15) 0) + acc.getD (n - 16) 0) % 2 ^ 32]

/-- Extend the 16 chunk words to the 64-entry message schedule. -/
def sched (w16 : List Nat) : List Nat :=
  (List.range 48).foldl (fun a _ => stepW a) w16

/-- The eight 32-bit working variables of the compression function. -/
structure Hs where
  a : Nat
  b : Nat
  c : Nat
  d : Nat
  e : Nat
  f : Nat
  g : Nat
  h : Nat

/-- One SHA-256 compression round for constant/schedule pair `kw`. -/
def round256 (s : Hs) (kw : Nat × Nat) : Hs :=
  let t1 := (s.h + bsig1 s.e + ch32 s.e s.f s.g + kw.1 + kw.2) % 2 ^ 32
  let t2 := (bsig0 s.a + maj32 s.a s.b s.c) % 2 ^ 32
  ⟨(t1 + t2) % 2 ^ 32, s.a, s.b, s.c, (s.d + t1) % 2 ^ 32, s.e, s.f, s.g⟩

/-- Process one 64-byte chunk: 64 rounds, then add into the hash state. -/
def processChunk (H : Hs) (chunk : List Nat) : Hs :=
  let s := (k256.zip (sched (toWords chunk))).foldl round256 H
  ⟨(H.a + s.a) % 2 ^ 32, (H.b + s.b) % 2 ^ 32, (H.c + s.c) % 2 ^ 32, (H.d + s.d) % 2 ^ 32,
   (H.e + s.e) % 2 ^ 32, (H.f + s.f) % 2 ^ 32, (H.g + s.g) % 2 ^ 32, (H.h + s.h) % 2 ^ 32⟩

/-- SHA-256 initial hash value (FIPS 180-4 section 5.3.3), in decimal. -/
def initH : Hs :=
  ⟨1779033703, 3144134277, 1013904242, 2773480762, 1359893119, 2600822924, 528734635, 1541459225⟩

/-- SHA-256 digest of a byte list, as its eight 32-bit words. -/
def sha256words (msg : List Nat) : List Nat :=
  let fin := (toChunks (padMsg msg)).foldl processChunk initH
  [fin.a, fin.b, fin.c, fin.d, fin.e, fin.f, fin.g, fin.h]

/-- Lower-case hexadecimal digit for `n < 16`. -/
def hexChar (n : Nat) : Char :=
  Char.ofNat (if n < 10 then 48 + n else 87 + n)

/-- Eight hex digits of a 32-bit word, big-endian. -/
def wordToHex (w : Nat) : Str :=
  [hexChar (w / 16 ^ 7 % 16), hexChar (w / 16 ^ 6 % 16), hexChar (w / 16 ^ 5 % 16),
   hexChar (w / 16 ^ 4 % 16), hexChar (w / 16 ^ 3 % 16), hexChar (w / 16 ^ 2 % 16),
   hexChar (w / 16 % 16), hexChar (w % 16)]

/-- The hex digest `hashlib.sha256(bytes).hexdigest()` as a character list. -/
def sha256hex (msg : List Nat) : Str :=
  (sha256words msg).flatMap wordToHex

/-- FIPS 180-4 test vector: SHA-256 of the empty message. -/
theorem sha256_empty_vector :
    sha256hex (utf8 "".data) =
      "e3b0c44298fc1c149afbf4c8996fb92427ae41e4649b934ca495991b7852b855".data := by
  decide

/-- FIPS 180-4 test vector: SHA-256 of `"abc"`. -/
theorem sha256_abc_vector :
    sha256hex (utf8 "abc".data) =
      "ba7816bf8f01cfea414140de5dae2223b00361a396177a9cb410ff61f20015ad".data := by
  decide

/-! ## POSIX path helpers (`os.path`) -/

/-- Index of the last occurrence of `c` (Python `str.rfind`, with `none`
for `-1`). -/
def rlastIdx (c : Char) : Str → Option Nat
  | [] => none
  | a :: t =>
    match rlastIdx c t with
    | some i => some (i + 1)
    | none => if a == c then some 0 else none

/-- Function `posixpath.basename`: everything after the last slash
(`p[p.rfind('/') + 1:]`). -/
def basename (p : Str) : Str :=
  match rlastIdx '/' p with
  | none => p
  | some s => p.drop (s + 1)

/-- First component of `posixpath.splitext`: cut at the last dot when it
lies strictly after the last slash and at least one non-dot character
stands between them (leading dots of a filename never start an
extension). -/
def splitextFst (p : Str) : Str :=
  match rlastIdx '.' p with
  | none => p
  | some d =>
    let start := match rlastIdx '/' p with | none => 0 | some s => s + 1
    if start ≤ d && ((p.drop start).take (d - start)).any (fun c => !(c == '.')) then
      p.take d
    else p

example : splitextFst "Ubuntu-22.04.iso".data = "Ubuntu-22.04".data := by decide
example : splitextFst ".bashrc".data = ".bashrc".data := by decide
example : splitextFst "a/b.c/d".data = "a/b.c/d".data := by decide
example : basename "/data/Ubuntu.iso".data = "Ubuntu.iso".data := by decide

/-- Function `posixpath.join` for a single extra component. -/
def pyJoin (a b : Str) : Str :=
  if b.head? = some '/' then b
  else if a = [] ∨ a.getLast? = some '/' then a ++ b
  else a ++ '/' :: b

/-- Python `str.split('/')`. -/
def splitSlash : Str → List Str
  | [] => [[]]
  | '/' :: t => [] :: splitSlash t
  | c :: t =>
    match splitSlash t with
    | [] => [[c]]
    | h :: r => (c :: h) :: r

/-- One step of `posixpath.normpath`'s component loop: skip empty and `.`
components, keep `..` only at the start of a relative path or after a
kept `..`, otherwise pop. -/
def normComp (initSl : Nat) (acc : List Str) (comp : Str) : List Str :=
  if comp = [] ∨ comp = ['.'] then acc
  else if comp ≠ ['.', '.'] ∨ (initSl = 0 ∧ acc = []) ∨ acc.getLast? = some ['.', '.'] then
    acc ++ [comp]
  else acc.dropLast

/-- Function `posixpath.normpath`: collapse slashes, `.` and `..` components,
preserving one or exactly two leading slashes. -/
def normpath (p : Str) : Str :=
  if p = [] then ['.']
  else
    let initSl : Nat :=
      if p.head? = some '/' then
        if p.take 2 = ['/', '/'] ∧ p.take 3 ≠ ['/', '/', '/'] then 2 else 1
      else 0
    let comps := (splitSlash p).foldl (normComp initSl) []
    let joined := List.replicate initSl '/' ++ List.intercalate ['/'] comps
    if joined = [] then ['.'] else joined

example : normpath "/a//b/./c/..".data = "/a/b".data := by decide
example : normpath "//x".data = "//x".data := by decide
example : normpath "a/../..".data = "..".data := by decide
example : normpath "/..".data = "/".data := by decide

/-- Function `posixpath.abspath`: join a relative path onto the working directory,
then normalise. -/
def abspath (cwd p : Str) : Str :=
  if p.head? = some '/' then normpath p else normpath (pyJoin cwd p)

example : abspath "/home/u".data "x.iso".data = "/home/u/x.iso".data := by decide
example : abspath "/".data "/tmp/file.txt".data = "/tmp/file.txt".data := by decide

/-- Python `str.lower()` on the ASCII / Latin-1 range. -/
def pyLowerChar (c : Char) : Char :=
  let n := c.toNat
  if (65 ≤ n ∧ n ≤ 90) ∨ (0xC0 ≤ n ∧ n ≤ 0xDE ∧ n ≠ 0xD7) then Char.ofNat (n + 32) else c

/-- Python `str.lower()`. -/
def pyLower (s : Str) : Str := s.map pyLowerChar

/-- Python `str.endswith(suf)`. -/
def pyEndsWith (s suf : Str) : Bool := s.reverse.take suf.length == suf.reverse

example : pyEndsWith (pyLower "/a/B.IsO".data) ".iso".data = true := by decide
example : pyEndsWith (pyLower "/tmp/file.txt".data) ".iso".data = false := by decide

/-! ## The path resolver (`get_mount_point`) -/

/-- Constant `BASE_MOUNT_DIR = os.path.join(os.path.expanduser("~"), ".iso_mounts")`;
the home directory is ambient OS state, passed in explicitly. -/
def BASE_MOUNT_DIR (home : Str) : Str := pyJoin home ".iso_mounts".data

/-- The sanitized directory-name component
`sanitize_filename(f"{iso_name}_{path_hash}")` built by `get_mount_point`. -/
def mount_dir_name (iso_path : Str) : Str :=
  sanitize_filename (splitextFst (basename iso_path) ++ '_' :: (sha256hex (utf8 iso_path)).take 8)

/-- Function `get_mount_point` from the source: stem of the filename, first 8 hex
characters of the SHA-256 of the full path, sanitized and joined under
`BASE_MOUNT_DIR`. -/
def get_mount_point (home iso_path : Str) : Str :=
  pyJoin (BASE_MOUNT_DIR home) (mount_dir_name iso_path)

/-! ## The mount lifecycle

`mount_iso`, `unmount_iso` and `main` interact with the OS.  We embed the
ambient OS state as a `World`: the filesystem entries, the mount table,
and the outcome each external collaborator would produce if invoked
(`mount` / `umount` subprocesses, `os.makedirs`, `os.rmdir`).  Each
procedure returns the exit tag (which `print`+`sys.exit` pair fired), the
updated world, and the trace of external operations invoked, in order.

`os.listdir(d)` is consulted only on directories that are not currently
mounted (after a failed mount, or when `d` is not / no longer a mount
point), so its emptiness is modelled by the underlying directory content
set `nonemptyDirs`, which none of the tool's own operations change
(`os.makedirs` creates empty directories, `os.rmdir` removes one). -/

/-- Outcome of running an external executable via `subprocess.run`:
exit status 0, a non-zero exit status (`CalledProcessError`), or the
executable not being on the search path (`FileNotFoundError`). -/
inductive RunOutcome
  | ok
  | err
  | missing
deriving DecidableEq, Repr

/-- An invocation of an external collaborator. -/
inductive Event
  | mkdirs (p : Str)
  | osMount (iso mp : Str)
  | osUmount (mp : Str)
  | rmdir (p : Str)
  | openBrowser (p : Str)
deriving DecidableEq, Repr

/-- Which `print` + `sys.exit` pair of the source terminated the run. -/
inductive ExitTag
  | okMounted
  | okAlready
  | okNoMountPoint
  | okNotMounted
  | okUnmounted
  | errNotFound
  | errNotAnIso
  | errBaseDirCreate
  | errMountDirCreate
  | errMountFailed
  | errMountToolMissing
  | errUnmountFailed
  | errUnmountToolMissing
  | errUsage
  | errUnknownAction
deriving DecidableEq, Repr

/-- The `sys.exit` code of each terminating branch: 0 for the success /
idempotent no-op branches, 1 for every failure branch. -/
def exitCode : ExitTag → Nat
  | .okMounted | .okAlready | .okNoMountPoint | .okNotMounted | .okUnmounted => 0
  | _ => 1

/-- Ambient OS state plus the (deterministic) outcomes of the external
collaborators consulted during one invocation. -/
structure World where
  cwd : Str
  home : Str
  /-- paths of existing non-directory filesystem entries -/
  files : List Str
  /-- paths of existing directories -/
  dirs : List Str
  /-- directories whose underlying `os.listdir` is non-empty -/
  nonemptyDirs : List Str
  /-- active mount points (`os.path.ismount` truth set) -/
  mounts : List Str
  /-- whether `os.makedirs(p, exist_ok=True)` raises `OSError` -/
  mkdirFails : Str → Bool
  /-- whether `os.rmdir(p)` raises `OSError` -/
  rmdirFails : Str → Bool
  /-- outcome of `subprocess.run(['mount', ...])` -/
  mountOutcome : RunOutcome
  /-- outcome of `subprocess.run(['umount', ...])` -/
  umountOutcome : RunOutcome
  /-- whether `xdg-open` is missing from the search path -/
  xdgMissing : Bool

/-- Predicate `os.path.exists`. -/
def pyExists (w : World) (p : Str) : Bool := w.files.contains p || w.dirs.contains p

/-- Function `is_mounted` from the source: `os.path.ismount(mount_point)`. -/
def is_mounted (w : World) (mp : Str) : Bool := w.mounts.contains mp

/-- Check `not os.listdir(d)` for an unmounted directory `d`. -/
def listdirEmpty (w : World) (d : Str) : Bool := !(w.nonemptyDirs.contains d)

/-- Effect of a successful `os.makedirs(d, exist_ok=True)`. -/
def ensureDir (w : World) (d : Str) : World :=
  if w.dirs.contains d then w else { w with dirs := d :: w.dirs }

/-- Effect of a successful `os.rmdir(d)`. -/
def removeDir (w : World) (d : Str) : World :=
  { w with dirs := w.dirs.filter (fun x => !(x == d)) }

/-- Function `mount_iso` from the source. -/
def mount_iso (w : World) (p0 : Str) : ExitTag × World × List Event :=
  let p := abspath w.cwd p0
  if !(pyExists w p) then (.errNotFound, w, [])
  else if !(pyEndsWith (pyLower p) ".iso".data) then (.errNotAnIso, w, [])
  else
    let mp := get_mount_point w.home p
    if is_mounted w mp then
      -- already mounted: report, best-effort xdg-open, exit 0
      (.okAlready, w, [.openBrowser mp])
    else if w.mkdirFails (BASE_MOUNT_DIR w.home) then
      (.errBaseDirCreate, w, [.mkdirs (BASE_MOUNT_DIR w.home)])
    else
      let w1 := ensureDir w (BASE_MOUNT_DIR w.home)
      if w.mkdirFails mp then
        (.errMountDirCreate, w1, [.mkdirs (BASE_MOUNT_DIR w.home), .mkdirs mp])
      else
        let w2 := ensureDir w1 mp
        match w.mountOutcome with
        | .ok =>
          let w3 := { w2 with mounts := mp :: w2.mounts }
          (.okMounted, w3,
            [.mkdirs (BASE_MOUNT_DIR w.home), .mkdirs mp, .osMount p mp, .openBrowser mp])
        | .err =>
          -- mount failed: clean up the directory when it exists and is empty
          if pyExists w2 mp && listdirEmpty w2 mp then
            if w.rmdirFails mp then
              (.errMountFailed, w2,
                [.mkdirs (BASE_MOUNT_DIR w.home), .mkdirs mp, .osMount p mp, .rmdir mp])
            else
              (.errMountFailed, removeDir w2 mp,
                [.mkdirs (BASE_MOUNT_DIR w.home), .mkdirs mp, .osMount p mp, .rmdir mp])
          else
            (.errMountFailed, w2, [.mkdirs (BASE_MOUNT_DIR w.home), .mkdirs mp, .osMount p mp])
        | .missing =>
          -- the `mount` executable itself was absent: nothing ran
          (.errMountToolMissing, w2, [.mkdirs (BASE_MOUNT_DIR w.home), .mkdirs mp])

/-- Function `unmount_iso` from the source. -/
def unmount_iso (w : World) (p0 : Str) : ExitTag × World × List Event :=
  let p := abspath w.cwd p0
  let mp := get_mount_point w.home p
  if !(pyExists w mp) then (.okNoMountPoint, w, [])
  else if !(is_mounted w mp) then
    -- not a mount point: best-effort cleanup of an empty directory, exit 0
    if pyExists w mp && listdirEmpty w mp then
      if w.rmdirFails mp then (.okNotMounted, w, [.rmdir mp])
      else (.okNotMounted, removeDir w mp, [.rmdir mp])
    else (.okNotMounted, w, [])
  else
    match w.umountOutcome with
    | .ok =>
      let w1 := { w with mounts := w.mounts.filter (fun x => !(x == mp)) }
      if pyExists w1 mp && listdirEmpty w1 mp then
        if w.rmdirFails mp then (.okUnmounted, w1, [.osUmount mp, .rmdir mp])
        else (.okUnmounted, removeDir w1 mp, [.osUmount mp, .rmdir mp])
      else (.okUnmounted, w1, [.osUmount mp])
    | .err => (.errUnmountFailed, w, [.osUmount mp])
    | .missing => (.errUnmountToolMissing, w, [])

/-- Function `main` from the source (Lean reserves the name `main`, hence
`main_cli`): `sys.argv[1]` is the action, `sys.argv[2]` the image path;
fewer than three entries in `sys.argv` is a usage error, and entries
beyond the third are never read. -/
def main_cli (w : World) (argv : List Str) : ExitTag × World × List Event :=
  match argv with
  | _ :: action :: iso_path :: _ =>
    if action = "mount".data then mount_iso w iso_path
    else if action = "unmount".data then unmount_iso w iso_path
    else (.errUnknownAction, w, [])
  | _ => (.errUsage, w, [])

/-! ## Lemmas about `sanitize_filename` -/

/-- The output alphabet of the replacement step: Python word characters,
dot, dash (underscore is itself a word character). -/
def outChar (c : Char) : Bool := pyIsWordChar c || c == '.' || c == '-'

theorem replaceChar_outChar (c : Char) : outChar (replaceChar c) = true := by
  unfold replaceChar
  split
  · next h => simpa [outChar] using h
  · decide

theorem replaceChar_self (c : Char) (h : replaceChar c = c) :
    replaceChar (replaceChar c) = replaceChar c := by
  rw [h, h]

theorem replaceChar_idem (c : Char) : replaceChar (replaceChar c) = replaceChar c := by
  unfold replaceChar
  split
  · next h => simp [replaceChar, h]
  · decide

/-- The "no two adjacent underscores" relation. -/
def RU (a b : Char) : Prop := ¬(a = '_' ∧ b = '_')

theorem und_pair_of_cond {a b : Char} (h : (a == '_' && b == '_') = true) :
    a = '_' ∧ b = '_' := by
  simpa using h

theorem mem_squeezeUnd {c : Char} : ∀ {l : Str}, c ∈ squeezeUnd l → c ∈ l
  | [], h => by simp [squeezeUnd] at h
  | [a], h => by rw [squeezeUnd] at h; exact h
  | a :: b :: t, h => by
    rw [squeezeUnd] at h
    split at h
    · exact List.mem_cons_of_mem a (mem_squeezeUnd h)
    · rcases List.mem_cons.mp h with rfl | h'
      · exact List.mem_cons_self _ _
      · exact List.mem_cons_of_mem a (mem_squeezeUnd h')

theorem mem_squeezeUnd_of_ne {c : Char} (hc : c ≠ '_') :
    ∀ {l : Str}, c ∈ l → c ∈ squeezeUnd l
  | [], h => by simp at h
  | [a], h => by rw [squeezeUnd]; exact h
  | a :: b :: t, h => by
    rw [squeezeUnd]
    split
    · next hab =>
      rcases List.mem_cons.mp h with rfl | h'
      · exact absurd (und_pair_of_cond hab).1 hc
      · exact mem_squeezeUnd_of_ne hc h'
    · rcases List.mem_cons.mp h with rfl | h'
      · exact List.mem_cons_self _ _
      · exact List.mem_cons_of_mem a (mem_squeezeUnd_of_ne hc h')

theorem squeezeUnd_head? (b : Char) : ∀ (t : Str), (squeezeUnd (b :: t)).head? = some b := by
  intro t
  induction t generalizing b with
  | nil => rfl
  | cons c t ih =>
    rw [squeezeUnd]
    split
    · next h =>
      obtain ⟨hb, hc⟩ := und_pair_of_cond h
      rw [ih c, hb, hc]
    · rfl

theorem squeezeUnd_chain : ∀ (l : Str), (squeezeUnd l).Chain' RU
  | [] => by simp [squeezeUnd]
  | [c] => by rw [squeezeUnd]; simp
  | a :: b :: t => by
    rw [squeezeUnd]
    split
    · exact squeezeUnd_chain (b :: t)
    · next hab =>
      refine List.chain'_cons'.mpr ⟨?_, squeezeUnd_chain (b :: t)⟩
      intro y hy
      rw [squeezeUnd_head?] at hy
      cases hy
      intro ⟨ha, hb⟩
      exact hab (by simp [ha, hb])

theorem squeezeUnd_eq_self : ∀ {l : Str}, l.Chain' RU → squeezeUnd l = l
  | [], _ => rfl
  | [c], _ => rfl
  | a :: b :: t, h => by
    rw [squeezeUnd]
    have hR : RU a b := (List.chain'_cons.mp h).1
    split
    · next hab => exact absurd (und_pair_of_cond hab) hR
    · rw [squeezeUnd_eq_self (List.chain'_cons.mp h).2]

theorem mem_dropWhile_of_ne {c : Char} (hc : c ≠ '_') :
    ∀ {l : Str}, c ∈ l → c ∈ l.dropWhile (fun x => x == '_')
  | a :: t, h => by
    rw [List.dropWhile_cons]
    split
    · next hqa =>
      rcases List.mem_cons.mp h with rfl | h'
      · exact absurd (by simpa using hqa) hc
      · exact mem_dropWhile_of_ne hc h'
    · exact h

theorem head?_dropWhile_not :
    ∀ {l : Str} {a : Char}, (l.dropWhile (fun x => x == '_')).head? = some a → a ≠ '_'
  | b :: t, a, h => by
    rw [List.dropWhile_cons] at h
    split at h
    · exact head?_dropWhile_not h
    · next hqb =>
      cases h
      simpa using hqb

theorem getLast?_dropWhile_of_ne_nil {q : Char → Bool} {l : Str}
    (h : l.dropWhile q ≠ []) : (l.dropWhile q).getLast? = l.getLast? := by
  obtain ⟨t, ht⟩ := List.dropWhile_suffix (l := l) q
  conv_rhs => rw [← ht]
  rw [List.getLast?_append_of_ne_nil _ h]

theorem mem_stripUnd_of_ne {c : Char} (hc : c ≠ '_') {l : Str} (h : c ∈ l) :
    c ∈ stripUnd l := by
  unfold stripUnd
  rw [List.mem_reverse]
  exact mem_dropWhile_of_ne hc (List.mem_reverse.mpr (mem_dropWhile_of_ne hc h))

theorem mem_of_mem_stripUnd {c : Char} {l : Str} (h : c ∈ stripUnd l) : c ∈ l := by
  unfold stripUnd at h
  rw [List.mem_reverse] at h
  exact (List.dropWhile_sublist _).subset
    (List.mem_reverse.mp ((List.dropWhile_sublist _).subset h))

theorem stripUnd_head? (l : Str) : (stripUnd l).head? ≠ some '_' := by
  intro h
  unfold stripUnd at h
  rw [List.head?_reverse] at h
  have hne : (l.dropWhile (fun x => x == '_')).reverse.dropWhile (fun x => x == '_') ≠ [] := by
    intro h0
    rw [h0] at h
    cases h
  rw [getLast?_dropWhile_of_ne_nil hne, List.getLast?_reverse] at h
  exact head?_dropWhile_not h rfl

theorem stripUnd_getLast? (l : Str) : (stripUnd l).getLast? ≠ some '_' := by
  intro h
  unfold stripUnd at h
  rw [List.getLast?_reverse] at h
  exact head?_dropWhile_not h rfl

theorem chain'_RU_reverse {l : Str} (h : l.Chain' RU) : l.reverse.Chain' RU := by
  rw [List.chain'_reverse]
  exact h.imp (fun a b hab => fun ⟨h1, h2⟩ => hab ⟨h2, h1⟩)

theorem stripUnd_chain {l : Str} (h : l.Chain' RU) : (stripUnd l).Chain' RU := by
  unfold stripUnd
  exact chain'_RU_reverse
    (((chain'_RU_reverse (h.suffix (List.dropWhile_suffix _))).suffix
      (List.dropWhile_suffix _)))

theorem stripUnd_eq_self {l : Str} (h1 : l.head? ≠ some '_') (h2 : l.getLast? ≠ some '_') :
    stripUnd l = l := by
  unfold stripUnd
  have e1 : l.dropWhile (fun x => x == '_') = l := by
    cases l with
    | nil => rfl
    | cons a t =>
      rw [List.dropWhile_cons, if_neg]
      intro hq
      have ha : a = '_' := by simpa using hq
      rw [ha] at h1
      exact h1 rfl
  rw [e1]
  have e2 : l.reverse.dropWhile (fun x => x == '_') = l.reverse := by
    cases hrev : l.reverse with
    | nil => rfl
    | cons a t =>
      rw [List.dropWhile_cons, if_neg]
      have hh : l.getLast? = some a := by rw [← List.head?_reverse, hrev]; rfl
      intro hq
      have ha : a = '_' := by simpa using hq
      rw [ha] at hh
      exact h2 hh
  rw [e2, List.reverse_reverse]

/-- Every character of `sanitize_filename s` is a kept character of the
replacement step. -/
theorem sanitize_chars {c : Char} {s : Str} (h : c ∈ sanitize_filename s) :
    outChar c = true := by
  unfold sanitize_filename at h
  have h1 : c ∈ s.map replaceChar := mem_squeezeUnd (mem_of_mem_stripUnd h)
  obtain ⟨c0, _, rfl⟩ := List.mem_map.mp h1
  exact replaceChar_outChar c0

/-- A character that the replacement step keeps unchanged and that is not
an underscore survives all three sanitization steps. -/
theorem mem_sanitize_of_kept {c : Char} {s : Str} (hmem : c ∈ s)
    (hkeep : replaceChar c = c) (hne : c ≠ '_') : c ∈ sanitize_filename s := by
  unfold sanitize_filename
  exact mem_stripUnd_of_ne hne
    (mem_squeezeUnd_of_ne hne (List.mem_map.mpr ⟨c, hmem, hkeep⟩))

/-! ## C1: the mount-point formula -/

/-- Helper `stem(P)` as the spec words it: the filename of `P` with its extension
removed. -/
def stem (p : Str) : Str := splitextFst (basename p)

/-- Helper `hash8(P)` as the spec words it: the first 8 hex characters of the
SHA-256 digest of the path string's UTF-8 bytes. -/
def hash8 (p : Str) : Str := (sha256hex (utf8 p)).take 8

/-- Resolver `resolveMountPoint(P)` as the spec words it:
`BaseDir / sanitize(stem(P) + "_" + hash8(P))`. -/
def resolveMountPoint (home p : Str) : Str :=
  pyJoin (BASE_MOUNT_DIR home) (sanitize_filename (stem p ++ '_' :: hash8 p))

/-- C1: for every image path `P`, `get_mount_point P` returns exactly
`BaseDir` joined with `sanitize(stem(P) + "_" + hash8(P))`, where `hash8`
is the first 8 hex characters of the SHA-256 digest of the path string's
UTF-8 bytes and `stem` is the filename without its extension. -/
theorem get_mount_point_eq_resolveMountPoint (home p : Str) :
    get_mount_point home p = resolveMountPoint home p := rfl

/-! ## C2: sanitization totality (corrected)

The claim's character class `[A-Za-z0-9_.-]` is ASCII-only, but Python's
`\w` is Unicode-aware: `sanitize_filename` keeps non-ASCII word characters
such as `'é'` unchanged.  The underscore-run and no-leading/trailing-
underscore parts do hold. -/

/-- The ASCII character class `[A-Za-z0-9_.-]` named by the claim. -/
def asciiNameChar (c : Char) : Bool :=
  let n := c.toNat
  decide ((48 ≤ n ∧ n ≤ 57) ∨ (65 ≤ n ∧ n ≤ 90) ∨ (97 ≤ n ∧ n ≤ 122) ∨
    n = 95 ∨ n = 46 ∨ n = 45)

/-- C2 counterexample: `sanitize_filename "é"` contains `'é'`, which is
outside `[A-Za-z0-9_.-]` (Python's `\w` keeps Unicode word characters). -/
theorem sanitize_ascii_class_counterexample :
    'é' ∈ sanitize_filename ['é'] ∧ asciiNameChar 'é' = false := by
  decide

/-- C2 amended: for every input string, every character of
`sanitize_filename s` is a Python word character, a dot or a dash; the
output never has two consecutive underscores and neither starts nor ends
with an underscore. -/
theorem sanitize_filename_amended (s : Str) :
    (∀ c, c ∈ sanitize_filename s → outChar c = true) ∧
    (sanitize_filename s).Chain' RU ∧
    (sanitize_filename s).head? ≠ some '_' ∧
    (sanitize_filename s).getLast? ≠ some '_' :=
  ⟨fun _ h => sanitize_chars h,
   stripUnd_chain (squeezeUnd_chain _),
   stripUnd_head? _,
   stripUnd_getLast? _⟩

/-- Witness for the amended C2 at a concrete input. -/
theorem sanitize_filename_amended_witness :
    ('a' ∈ sanitize_filename "a!b".data) ∧ outChar 'a' = true :=
  ⟨by decide, (sanitize_filename_amended "a!b".data).1 'a' (by decide)⟩

/-! ## C9: idempotence of `sanitize_filename` -/

/-- C9: `sanitize_filename` is idempotent. -/
theorem sanitize_filename_idem (s : Str) :
    sanitize_filename (sanitize_filename s) = sanitize_filename s := by
  have hchars : ∀ c ∈ sanitize_filename s, replaceChar c = c := by
    intro c hc
    have h := sanitize_chars hc
    simp only [outChar] at h
    simp [replaceChar, h]
  have hmap : (sanitize_filename s).map replaceChar = sanitize_filename s := by
    rw [List.map_congr_left hchars]
    simp
  have hchain : (sanitize_filename s).Chain' RU := stripUnd_chain (squeezeUnd_chain _)
  have hh : (sanitize_filename s).head? ≠ some '_' := stripUnd_head? _
  have hl : (sanitize_filename s).getLast? ≠ some '_' := stripUnd_getLast? _
  show stripUnd (squeezeUnd ((sanitize_filename s).map replaceChar)) = sanitize_filename s
  rw [hmap, squeezeUnd_eq_self hchain]
  exact stripUnd_eq_self hh hl

/-! ## C10: the mount point is a strict descendant of the base directory -/

theorem hexChar_facts : ∀ n, n < 16 →
    pyIsWordChar (hexChar n) = true ∧ hexChar n ≠ '_' := by
  decide

theorem wordToHex_length (w : Nat) : (wordToHex w).length = 8 := rfl

/-- The first 8 characters of a SHA-256 hex digest are the hex expansion
of the first digest word. -/
theorem sha256hex_take8 (m : List Nat) :
    ∃ w, (sha256hex m).take 8 = wordToHex w := by
  refine ⟨((toChunks (padMsg m)).foldl processChunk initH).a, ?_⟩
  show ((sha256words m).flatMap wordToHex).take 8 = _
  simp only [sha256words, List.flatMap_cons]
  rw [List.take_left' (wordToHex_length _)]

theorem head?_mem_of {α : Type} {l : List α} {a : α} (h : l.head? = some a) : a ∈ l := by
  cases l with
  | nil => cases h
  | cons b t =>
    cases h
    exact List.mem_cons_self _ _

/-- The hash suffix survives sanitization, so the directory-name component
is never empty. -/
theorem mount_dir_name_ne_nil (p : Str) : mount_dir_name p ≠ [] := by
  obtain ⟨w, hw⟩ := sha256hex_take8 (utf8 p)
  unfold mount_dir_name
  rw [hw]
  set c0 := hexChar (w / 16 ^ 7 % 16) with hc0
  have hlt : w / 16 ^ 7 % 16 < 16 := Nat.mod_lt _ (by norm_num)
  obtain ⟨hword, hne⟩ := hexChar_facts _ hlt
  have hmem : c0 ∈ splitextFst (basename p) ++ '_' :: wordToHex w := by
    refine List.mem_append_right _ (List.mem_cons_of_mem _ ?_)
    simp [wordToHex, hc0]
  have hkeep : replaceChar c0 = c0 := by
    simp [replaceChar, hword]
  exact List.ne_nil_of_mem (mem_sanitize_of_kept hmem hkeep hne)

/-- The sanitized directory-name component never starts with a slash. -/
theorem mount_dir_name_head_ne_slash (p : Str) :
    (mount_dir_name p).head? ≠ some '/' := by
  intro h
  have hmem := head?_mem_of h
  have := sanitize_chars (s := splitextFst (basename p) ++
    '_' :: (sha256hex (utf8 p)).take 8) hmem
  simp [outChar, pyIsWordChar] at this

/-- The base directory string always ends in the `'s'` of `".iso_mounts"`. -/
theorem BASE_MOUNT_DIR_getLast? (home : Str) :
    (BASE_MOUNT_DIR home).getLast? = some 's' := by
  unfold BASE_MOUNT_DIR pyJoin
  split
  · next h => exact absurd h (by decide)
  · split
    · rw [List.getLast?_append_of_ne_nil _ (by decide)]
      decide
    · rw [List.getLast?_append_of_ne_nil _ (by decide)]
      decide

theorem pyJoin_eq_append (a b : Str) (hb : b.head? ≠ some '/') (ha : a ≠ [])
    (ha2 : a.getLast? ≠ some '/') : pyJoin a b = a ++ '/' :: b := by
  unfold pyJoin
  rw [if_neg hb, if_neg]
  rintro (h | h)
  · exact ha h
  · exact ha2 h

/-- C10: the directory-name component of `get_mount_point` is non-empty
(the 8-character hash suffix survives sanitization), so the mount point is
`BaseDir ++ "/" ++ name` for a non-empty `name` and never equals `BaseDir`
itself. -/
theorem get_mount_point_strict_descendant (home p : Str) :
    mount_dir_name p ≠ [] ∧
    get_mount_point home p = BASE_MOUNT_DIR home ++ '/' :: mount_dir_name p ∧
    get_mount_point home p ≠ BASE_MOUNT_DIR home := by
  have hlast := BASE_MOUNT_DIR_getLast? home
  have hne : BASE_MOUNT_DIR home ≠ [] := by
    intro h
    rw [h] at hlast
    cases hlast
  have hns : (BASE_MOUNT_DIR home).getLast? ≠ some '/' := by
    rw [hlast]
    decide
  have hjoin : get_mount_point home p = BASE_MOUNT_DIR home ++ '/' :: mount_dir_name p :=
    pyJoin_eq_append _ _ (mount_dir_name_head_ne_slash p) hne hns
  refine ⟨mount_dir_name_ne_nil p, hjoin, ?_⟩
  rw [hjoin]
  intro h
  have hlen := congrArg List.length h
  simp [List.length_append] at hlen

/-! ## Worlds used as concrete test inputs -/

/-- A world with nothing on disk, nothing mounted, and all collaborators
healthy except that the external `mount`/`umount` commands would fail if
ever reached. -/
def emptyWorld : World where
  cwd := "/".data
  home := "/h".data
  files := []
  dirs := []
  nonemptyDirs := []
  mounts := []
  mkdirFails := fun _ => false
  rmdirFails := fun _ => false
  mountOutcome := .err
  umountOutcome := .err
  xdgMissing := false

/-- World where `/x.iso` exists and its mount point (hash suffix `a664e764`) is in the
OS mount table. -/
def alreadyMountedWorld : World :=
  { emptyWorld with
    files := ["/x.iso".data]
    mounts := ["/h/.iso_mounts/x_a664e764".data] }

/-- World where `/d.iso` exists but is a directory, and the OS mount operation would
succeed. -/
def dirWorld : World :=
  { emptyWorld with dirs := ["/d.iso".data], mountOutcome := .ok }

/-- Only the non-ISO file `/tmp/file.txt` exists. -/
def txtWorld : World :=
  { emptyWorld with files := ["/tmp/file.txt".data] }

/-- The mount-point directory of `/y.iso` (hash suffix `f11d1cde`) exists,
is empty, and is not mounted. -/
def staleDirWorld : World :=
  { emptyWorld with dirs := ["/h/.iso_mounts/y_f11d1cde".data] }

/-! ## C3: the existence precondition (corrected)

The source checks `os.path.exists`, which is true for directories too, so
a directory named `/d.iso` is not rejected with the NotFound error. -/

/-- C3 counterexample: for a world where `/d.iso` is an existing
*directory*, `mount_iso` does not fail with NotFound (it proceeds all the
way to a successful mount). -/
theorem mount_iso_directory_counterexample :
    (mount_iso dirWorld "/d.iso".data).1 = .okMounted ∧
    ExitTag.okMounted ≠ ExitTag.errNotFound := by
  exact ⟨by decide, by decide⟩

/-- C3 amended: the first check of `mount_iso` is `os.path.exists` on the
resolved path - when it fails, the run ends with NotFound (exit 1) before
any other check or effect; when the path exists (regular file or not), the
result is never NotFound. -/
theorem mount_iso_notfound_amended (w : World) (p0 : Str) :
    (pyExists w (abspath w.cwd p0) = false →
      mount_iso w p0 = (.errNotFound, w, []) ∧ exitCode ExitTag.errNotFound = 1) ∧
    (pyExists w (abspath w.cwd p0) = true → (mount_iso w p0).1 ≠ .errNotFound) := by
  constructor
  · intro h
    exact ⟨by simp [mount_iso, h], rfl⟩
  · intro h
    rcases hmo : w.mountOutcome with _ | _ | _ <;>
    · simp only [mount_iso, h, hmo]
      split_ifs <;> simp_all

/-- Witness for the amended C3 at concrete inputs: a missing path gives
NotFound; an existing directory does not. -/
theorem mount_iso_notfound_amended_witness :
    (mount_iso emptyWorld "/nope.iso".data = (.errNotFound, emptyWorld, []) ∧
      exitCode ExitTag.errNotFound = 1) ∧
    (mount_iso dirWorld "/d.iso".data).1 ≠ .errNotFound :=
  ⟨(mount_iso_notfound_amended emptyWorld "/nope.iso".data).1 (by decide),
   (mount_iso_notfound_amended dirWorld "/d.iso".data).2 (by decide)⟩

/-! ## C4: non-ISO rejection (corrected)

The existence check runs first, so a non-ISO path that does not exist is
rejected with the NotFound message, not the NotAnIso one; the exit code is
1 either way. -/

/-- C4 counterexample: `mount` on the non-existing `/tmp/file.txt` exits
with the NotFound error class, not NotAnIso. -/
theorem mount_iso_notaniso_counterexample :
    (mount_iso emptyWorld "/tmp/file.txt".data).1 = .errNotFound ∧
    ExitTag.errNotFound ≠ ExitTag.errNotAnIso := by
  exact ⟨by decide, by decide⟩

/-- C4 amended: for every path whose resolved form does not end with
`".iso"` case-insensitively, `mount_iso` exits with code 1; the error
class is NotAnIso when the path exists and NotFound when it does not. -/
theorem mount_iso_notaniso_amended (w : World) (p0 : Str)
    (h : pyEndsWith (pyLower (abspath w.cwd p0)) ".iso".data = false) :
    exitCode (mount_iso w p0).1 = 1 ∧
    (pyExists w (abspath w.cwd p0) = true → mount_iso w p0 = (.errNotAnIso, w, [])) ∧
    (pyExists w (abspath w.cwd p0) = false → mount_iso w p0 = (.errNotFound, w, [])) := by
  by_cases hex : pyExists w (abspath w.cwd p0) = true
  · have he : mount_iso w p0 = (.errNotAnIso, w, []) := by simp [mount_iso, hex, h]
    exact ⟨by rw [he]; rfl, fun _ => he, fun hf => absurd hex (by simp [hf])⟩
  · have hf : pyExists w (abspath w.cwd p0) = false := by simpa using hex
    have he : mount_iso w p0 = (.errNotFound, w, []) := by simp [mount_iso, hf]
    exact ⟨by rw [he]; rfl, fun ht => absurd ht hex, fun _ => he⟩

/-- Witness for the amended C4 at a concrete input: `/tmp/file.txt`
exists, so the run ends with NotAnIso and exit code 1. -/
theorem mount_iso_notaniso_amended_witness :
    exitCode (mount_iso txtWorld "/tmp/file.txt".data).1 = 1 ∧
    (pyExists txtWorld (abspath txtWorld.cwd "/tmp/file.txt".data) = true →
      mount_iso txtWorld "/tmp/file.txt".data = (.errNotAnIso, txtWorld, [])) ∧
    (pyExists txtWorld (abspath txtWorld.cwd "/tmp/file.txt".data) = false →
      mount_iso txtWorld "/tmp/file.txt".data = (.errNotFound, txtWorld, [])) :=
  mount_iso_notaniso_amended txtWorld "/tmp/file.txt".data (by decide)

/-! ## C5: idempotent mount -/

/-- C5: when the resolved mount point is already an active mount point,
`mount_iso` exits 0 without invoking the OS mount operation and without
creating any directory; the world is unchanged and the only external
effect is the best-effort file-browser open. -/
theorem mount_iso_already_mounted (w : World) (p0 : Str)
    (hex : pyExists w (abspath w.cwd p0) = true)
    (hiso : pyEndsWith (pyLower (abspath w.cwd p0)) ".iso".data = true)
    (hm : is_mounted w (get_mount_point w.home (abspath w.cwd p0)) = true) :
    mount_iso w p0 =
      (.okAlready, w, [.openBrowser (get_mount_point w.home (abspath w.cwd p0))]) ∧
    exitCode (mount_iso w p0).1 = 0 := by
  have he : mount_iso w p0 =
      (.okAlready, w, [.openBrowser (get_mount_point w.home (abspath w.cwd p0))]) := by
    simp [mount_iso, hex, hiso, hm]
  exact ⟨he, by rw [he]; rfl⟩

/-- Witness for C5 at a concrete input. -/
theorem mount_iso_already_mounted_witness :
    mount_iso alreadyMountedWorld "/x.iso".data =
      (.okAlready, alreadyMountedWorld,
        [.openBrowser (get_mount_point alreadyMountedWorld.home
          (abspath alreadyMountedWorld.cwd "/x.iso".data))]) ∧
    exitCode (mount_iso alreadyMountedWorld "/x.iso".data).1 = 0 :=
  mount_iso_already_mounted alreadyMountedWorld "/x.iso".data
    (by decide) (by decide) (by decide)

/-! ## C6: unmount of a never-mounted image -/

/-- C6: when the resolved mount-point directory does not exist,
`unmount_iso` exits 0 without invoking the OS unmount operation and
without modifying the filesystem; the image file itself is not required to
exist and its extension is never checked. -/
theorem unmount_iso_no_mount_point (w : World) (p0 : Str)
    (h : pyExists w (get_mount_point w.home (abspath w.cwd p0)) = false) :
    unmount_iso w p0 = (.okNoMountPoint, w, []) ∧
    exitCode (unmount_iso w p0).1 = 0 := by
  have he : unmount_iso w p0 = (.okNoMountPoint, w, []) := by
    simp [unmount_iso, h]
  exact ⟨he, by rw [he]; rfl⟩

/-- Witness for C6 at a concrete input (note the image file does not exist
either). -/
theorem unmount_iso_no_mount_point_witness :
    unmount_iso emptyWorld "/y.iso".data = (.okNoMountPoint, emptyWorld, []) ∧
    exitCode (unmount_iso emptyWorld "/y.iso".data).1 = 0 :=
  unmount_iso_no_mount_point emptyWorld "/y.iso".data (by decide)

/-! ## C7: CLI argument validation (corrected)

The source checks `len(sys.argv) < 3`, not an exact arity: extra arguments
beyond the action and the image path are silently ignored, and such an
invocation can exit 0. -/

/-- C7 counterexample: an invocation with one extra argument is not
rejected - here it runs the unmount action and exits 0, not 1. -/
theorem main_cli_extra_args_counterexample :
    exitCode (main_cli emptyWorld
      ["tool".data, "unmount".data, "/x.iso".data, "extra".data]).1 = 0 ∧
    (0 : Nat) ≠ 1 := by
  exact ⟨by decide, by decide⟩

/-- C7 amended: fewer than two arguments after the program name exits 1
with a usage error and performs no action; an unknown action with at least
two arguments exits 1 with an unknown-action error and performs no action;
arguments beyond the second are ignored. -/
theorem main_cli_usage_amended (w : World) (argv : List Str) :
    (argv.length < 3 →
      main_cli w argv = (.errUsage, w, []) ∧ exitCode ExitTag.errUsage = 1) ∧
    (∀ prog a p rest, argv = prog :: a :: p :: rest →
      a ≠ "mount".data → a ≠ "unmount".data →
      main_cli w argv = (.errUnknownAction, w, []) ∧
        exitCode ExitTag.errUnknownAction = 1) := by
  constructor
  · intro h
    rcases argv with _ | ⟨x, _ | ⟨y, _ | ⟨z, t⟩⟩⟩
    · exact ⟨rfl, rfl⟩
    · exact ⟨rfl, rfl⟩
    · exact ⟨rfl, rfl⟩
    · simp at h
      omega
  · rintro prog a p rest rfl hm hu
    refine ⟨?_, rfl⟩
    simp [main_cli, hm, hu]

/-- Witness for the amended C7 at concrete inputs. -/
theorem main_cli_usage_amended_witness :
    (main_cli emptyWorld ["tool".data] = (.errUsage, emptyWorld, []) ∧
      exitCode ExitTag.errUsage = 1) ∧
    (main_cli emptyWorld ["tool".data, "frobnicate".data, "/x.iso".data] =
        (.errUnknownAction, emptyWorld, []) ∧
      exitCode ExitTag.errUnknownAction = 1) :=
  ⟨(main_cli_usage_amended emptyWorld _).1 (by decide),
   (main_cli_usage_amended emptyWorld _).2 "tool".data "frobnicate".data
     "/x.iso".data [] rfl (by decide) (by decide)⟩

/-! ## C8: directories are removed only when empty -/

theorem ensureDir_nonemptyDirs (w : World) (x : Str) :
    (ensureDir w x).nonemptyDirs = w.nonemptyDirs := by
  unfold ensureDir
  split <;> rfl

theorem listdirEmpty_ensureDir (w : World) (x d : Str) :
    listdirEmpty (ensureDir w x) d = listdirEmpty w d := by
  unfold listdirEmpty
  rw [ensureDir_nonemptyDirs]

theorem listdirEmpty_eq_true {w : World} {d : Str} (h : listdirEmpty w d = true) :
    w.nonemptyDirs.contains d = false := by
  unfold listdirEmpty at h
  simpa using h

/-- C8: in every execution of `mount_iso` or `unmount_iso`, an `os.rmdir`
is invoked on a directory only if its `os.listdir` is empty (the tool's
own operations never change a directory's underlying content, so the
emptiness set of the initial world is the one every guard consults). -/
theorem rmdir_only_when_empty (w : World) (p0 d : Str) :
    (Event.rmdir d ∈ (mount_iso w p0).2.2 → w.nonemptyDirs.contains d = false) ∧
    (Event.rmdir d ∈ (unmount_iso w p0).2.2 → w.nonemptyDirs.contains d = false) := by
  constructor
  · intro hmem
    by_cases h1 : pyExists w (abspath w.cwd p0)
    case neg => simp [mount_iso, h1] at hmem
    by_cases h2 : pyEndsWith (pyLower (abspath w.cwd p0)) ".iso".data
    case neg => simp [mount_iso, h1, h2] at hmem
    by_cases h3 : is_mounted w (get_mount_point w.home (abspath w.cwd p0))
    case pos => simp [mount_iso, h1, h2, h3] at hmem
    by_cases h4 : w.mkdirFails (BASE_MOUNT_DIR w.home)
    case pos => simp [mount_iso, h1, h2, h3, h4] at hmem
    by_cases h5 : w.mkdirFails (get_mount_point w.home (abspath w.cwd p0))
    case pos => simp [mount_iso, h1, h2, h3, h4, h5] at hmem
    rcases hmo : w.mountOutcome with _ | _ | _
    · simp [mount_iso, h1, h2, h3, h4, h5, hmo] at hmem
    · by_cases h6 :
        (pyExists (ensureDir (ensureDir w (BASE_MOUNT_DIR w.home))
            (get_mount_point w.home (abspath w.cwd p0)))
          (get_mount_point w.home (abspath w.cwd p0)) &&
         listdirEmpty (ensureDir (ensureDir w (BASE_MOUNT_DIR w.home))
            (get_mount_point w.home (abspath w.cwd p0)))
          (get_mount_point w.home (abspath w.cwd p0)))
      case neg => simp [mount_iso, h1, h2, h3, h4, h5, hmo, h6] at hmem
      have hempty : w.nonemptyDirs.contains
          (get_mount_point w.home (abspath w.cwd p0)) = false := by
        have h6' := (Bool.and_eq_true _ _ ▸ h6).2
        rw [listdirEmpty_ensureDir, listdirEmpty_ensureDir] at h6'
        exact listdirEmpty_eq_true h6'
      by_cases h7 : w.rmdirFails (get_mount_point w.home (abspath w.cwd p0)) <;>
      · simp [mount_iso, h1, h2, h3, h4, h5, hmo, h6, h7] at hmem
        rcases hmem with ⟨rfl⟩
        exact hempty
    · simp [mount_iso, h1, h2, h3, h4, h5, hmo] at hmem
  · intro hmem
    by_cases h1 : pyExists w (get_mount_point w.home (abspath w.cwd p0))
    case neg => simp [unmount_iso, h1] at hmem
    by_cases h2 : is_mounted w (get_mount_point w.home (abspath w.cwd p0))
    case neg =>
      by_cases h3 : listdirEmpty w (get_mount_point w.home (abspath w.cwd p0))
      case neg => simp [unmount_iso, h1, h2, h3] at hmem
      have hempty := listdirEmpty_eq_true h3
      by_cases h4 : w.rmdirFails (get_mount_point w.home (abspath w.cwd p0)) <;>
      · simp [unmount_iso, h1, h2, h3, h4] at hmem
        subst hmem
        exact hempty
    rcases hmo : w.umountOutcome with _ | _ | _
    · simp only [unmount_iso, h1, h2, hmo] at hmem
      simp only [Bool.not_true, Bool.false_eq_true, if_false] at hmem
      split at hmem
      · next h3 =>
        have hne : w.nonemptyDirs.contains
            (get_mount_point w.home (abspath w.cwd p0)) = false :=
          listdirEmpty_eq_true (Bool.and_eq_true _ _ ▸ h3).2
        split at hmem <;>
        · simp at hmem
          subst hmem
          exact hne
      · simp at hmem
    · simp [unmount_iso, h1, h2, hmo] at hmem
    · simp [unmount_iso, h1, h2, hmo] at hmem

/-- Witness for C8: a concrete unmount run that does invoke `os.rmdir`,
on a directory whose `os.listdir` is empty. -/
theorem rmdir_only_when_empty_witness :
    (Event.rmdir "/h/.iso_mounts/y_f11d1cde".data ∈
      (unmount_iso staleDirWorld "/y.iso".data).2.2) ∧
    staleDirWorld.nonemptyDirs.contains "/h/.iso_mounts/y_f11d1cde".data = false :=
  have h : Event.rmdir "/h/.iso_mounts/y_f11d1cde".data ∈
      (unmount_iso staleDirWorld "/y.iso".data).2.2 := by decide
  ⟨h, (rmdir_only_when_empty staleDirWorld "/y.iso".data
    "/h/.iso_mounts/y_f11d1cde".data).2 h⟩
